import Mathlib

/-!
# Verification of pg_rman v1.1.2 `restore.c`

A shallow embedding of the restore orchestrator of pg_rman 1.1.2
(`src/tags/v1.1.2/restore.c`): timeline-history resolution
(`readTimeLineHistory`), timeline satisfaction (`satisfy_timeline`),
base/incremental backup selection (the two scan loops of `do_restore`),
the per-backup file synchronizer (`restore_database`), the archive
restorer (`restore_archive_logs`), the WAL continuity checker
(`search_next_wal`), and the top-level sequencing of `do_restore`.

Machine integers (`uint32` LSN components, sizes) are modelled as `Nat`;
the values occurring in the program are far below `2^32`, and the only
place the `uint32` range matters — the `(uint32)-1` unbounded end
boundary of the target timeline — is modelled by the explicit constant
`4294967295`.  Filesystem state is modelled as a finite set of paths;
fatal `elog(ERROR_*, ...)` calls are modelled with `Except`.
-/

namespace PgRman

/-- `XLogRecPtr`: a WAL log sequence number, a `(xlogid, xrecoff)` pair of
`uint32`s (modelled as `Nat`). -/
structure XLogRecPtr where
  xlogid : Nat
  xrecoff : Nat
deriving DecidableEq

/-- `XLByteLT(a, b)` from the PostgreSQL headers: strict lexicographic
comparison of LSNs (`a.xlogid < b.xlogid || (a.xlogid == b.xlogid &&
a.xrecoff < b.xrecoff)`). -/
def XLByteLT (a b : XLogRecPtr) : Bool :=
  a.xlogid < b.xlogid || (a.xlogid == b.xlogid && a.xrecoff < b.xrecoff)

/-- The `(uint32)-1 / (uint32)-1` end boundary that `readTimeLineHistory`
assigns to the target timeline ("lsn in target timeline is valid"). -/
def unboundedLSN : XLogRecPtr := ⟨4294967295, 4294967295⟩

/-- Backup modes.  Modelled from the spec: `pg_rman.h` is not under
`src/`; the spec describes `backup_mode` as an ordered enum
PAGE/ARCHIVE-only < INCREMENTAL < FULL. -/
inductive BackupMode
  | BACKUP_MODE_ARCHIVE
  | BACKUP_MODE_INCREMENTAL
  | BACKUP_MODE_FULL
deriving DecidableEq

/-- Numeric rank of a backup mode, giving the `<` / `>=` comparisons used
by the selection loops in `do_restore`. -/
def BackupMode.rank : BackupMode → Nat
  | .BACKUP_MODE_ARCHIVE => 1
  | .BACKUP_MODE_INCREMENTAL => 2
  | .BACKUP_MODE_FULL => 3

/-- Backup status.  Modelled from the spec: `pg_rman.h` is not under
`src/`; the spec lists OK, DONE, ERROR, RUNNING, CORRUPT among others;
only equality with OK is consulted by the restore path. -/
inductive BackupStatus
  | BACKUP_STATUS_OK
  | BACKUP_STATUS_DONE
  | BACKUP_STATUS_ERROR
  | BACKUP_STATUS_RUNNING
  | BACKUP_STATUS_CORRUPT
deriving DecidableEq

/-- One entry of a backup's file manifest (`pgFile`): a path, whether it
is a directory (`S_ISDIR(file->mode)`), and the recorded `write_size`,
where `none` models the `BYTES_INVALID` sentinel ("recorded in the
manifest but content not captured"). -/
structure PgFile where
  path : String
  isdir : Bool
  write_size : Option Nat
deriving DecidableEq

/-- One catalog entry (`pgBackup`), restricted to the fields `restore.c`
reads.  The fields `dbFiles` / `arcFiles` model the backup's on-disk
`DATABASE_FILE_LIST` / `ARCLOG_FILE_LIST` manifests, which the code
re-reads from the backup directory; `with_arclog` models the
`HAVE_ARCLOG(backup)` flag ("has archived WAL captured" in the spec,
`pg_rman.h` being outside `src/`). -/
structure Backup where
  backup_mode : BackupMode
  status : BackupStatus
  tli : Nat
  start_lsn : XLogRecPtr
  stop_lsn : XLogRecPtr
  block_size : Nat
  wal_block_size : Nat
  compress_data : Bool
  with_arclog : Bool
  dbFiles : List PgFile
  arcFiles : List PgFile
deriving DecidableEq

/-- `pgTimeLine`: a timeline id together with the (exclusive) end
boundary LSN at which the timeline was promoted into its child. -/
structure PgTimeLine where
  tli : Nat
  endLsn : XLogRecPtr
deriving DecidableEq

/-- `satisfy_timeline` (restore.c:809-821): the backup is usable for the
resolved chain iff some chain entry has the same `tli` and an end
boundary strictly greater than the backup's `stop_lsn`. -/
def satisfy_timeline (timelines : List PgTimeLine) (backup : Backup) : Bool :=
  timelines.any (fun t => backup.tli == t.tli && XLByteLT backup.stop_lsn t.endLsn)

/-- Decidable equality of `Except` results, for concrete evaluation. -/
instance instDecEqExcept {ε α : Type} [DecidableEq ε] [DecidableEq α] :
    DecidableEq (Except ε α)
  | .ok a, .ok b =>
    if h : a = b then isTrue (by rw [h]) else isFalse (fun hc => h (Except.ok.inj hc))
  | .ok _, .error _ => isFalse (fun hc => Except.noConfusion hc)
  | .error _, .ok _ => isFalse (fun hc => Except.noConfusion hc)
  | .error e, .error f =>
    if h : e = f then isTrue (by rw [h]) else isFalse (fun hc => h (Except.error.inj hc))

/-- The fatal error codes raised by the restore path. -/
inductive RestoreError
  | ERROR_CORRUPTED
  | ERROR_NO_BACKUP
  | ERROR_PG_INCOMPATIBLE
  | ERROR_SYSTEM
  | ERROR_INTERRUPTED
deriving DecidableEq

/-! ## Timeline History Resolver (`readTimeLineHistory`, restore.c:693-807) -/

/-- WAL segment size in bytes (`XLogSegSize`), the standard 16MB of the
PostgreSQL builds pg_rman 1.1.2 targets; an external compiled constant. -/
def XLogSegSize : Nat := 16777216

/-- A WAL segment file name `%08X%08X%08X` (timeline, log id, segment),
modelled as the decoded triple rather than its hex rendering. -/
structure WalFileName where
  tli : Nat
  log : Nat
  seg : Nat
deriving DecidableEq

/-- Modelled from the spec: `xlog_logfname2lsn` lives in `xlog.c`, which
is not under `src/`; per the spec the WAL filename token is converted
"into an end-LSN via the WAL-naming convention", i.e. log id and segment
number scaled by the segment size. -/
def xlog_logfname2lsn (f : WalFileName) : XLogRecPtr :=
  ⟨f.log, f.seg * XLogSegSize⟩

/-- One line of a timeline history file after lexing: either a blank /
comment line (skipped by the parse loop), or a well-formed record
`<tli> <end-wal-filename>`.  Lexically malformed lines (no leading
number, missing end file name) are fatal in the code but outside the
claims; the embedding carries only the two line shapes the claims need. -/
inductive HistoryLine
  | blank
  | record (tli : Nat) (fname : WalFileName)
deriving DecidableEq

/-- The record lines of a history file, in order. -/
def recordsOf (lines : List HistoryLine) : List (Nat × WalFileName) :=
  lines.filterMap (fun l =>
    match l with
    | .blank => none
    | .record t f => some (t, f))

/-- The timeline ids of the record lines of a history file, in order. -/
def recordTlis (lines : List HistoryLine) : List Nat :=
  (recordsOf lines).map (fun p => p.1)

/-- The non-increasing check of the parse loop (restore.c:756-758):
`last_timeline && timeline->tli <= last_timeline->tli`. -/
def tliNotIncreasing (last : Option PgTimeLine) (t : Nat) : Bool :=
  match last with
  | none => false
  | some l => t ≤ l.tli

/-- The parse loop of `readTimeLineHistory` (restore.c:730-778) on the
record lines: each record must have a `tli` strictly greater than the
previous one (else `ERROR_CORRUPTED`), and is prepended to the result
(`parray_insert(result, 0, timeline)`, newest first).  Returns the
accumulated list and the last parsed timeline. -/
def parseRecords :
    List (Nat × WalFileName) → Option PgTimeLine → List PgTimeLine →
    Except RestoreError (List PgTimeLine × Option PgTimeLine)
  | [], last, acc => .ok (acc, last)
  | (t, f) :: rest, last, acc =>
    if tliNotIncreasing last t then
      .error .ERROR_CORRUPTED
    else
      parseRecords rest (some ⟨t, xlog_logfname2lsn f⟩)
        (⟨t, xlog_logfname2lsn f⟩ :: acc)

/-- The same parse loop on raw lines, skipping blank / comment lines. -/
def parseHistoryLines :
    List HistoryLine → Option PgTimeLine → List PgTimeLine →
    Except RestoreError (List PgTimeLine × Option PgTimeLine)
  | [], last, acc => .ok (acc, last)
  | .blank :: rest, last, acc => parseHistoryLines rest last acc
  | .record t f :: rest, last, acc =>
    if tliNotIncreasing last t then
      .error .ERROR_CORRUPTED
    else
      parseHistoryLines rest (some ⟨t, xlog_logfname2lsn f⟩)
        (⟨t, xlog_logfname2lsn f⟩ :: acc)

/-- `readTimeLineHistory` (restore.c:693-807).  The input is the content
of the first history file found for the target timeline (`none` when no
file exists — not an error).  After parsing, the target's own id must be
strictly greater than the last ancestor's (restore.c:783-785), and a
synthetic entry for the target with unbounded end boundary is prepended
(`parray_insert(result, 0, timeline)`), yielding the newest-first chain. -/
def readTimeLineHistory (targetTLI : Nat) (file : Option (List HistoryLine)) :
    Except RestoreError (List PgTimeLine) := do
  let (acc, last) ← parseHistoryLines (file.getD []) none []
  if tliNotIncreasing last targetTLI then
    .error .ERROR_CORRUPTED
  else
    .ok (⟨targetTLI, unboundedLSN⟩ :: acc)

/-- Adjacent non-increasing pair in a list of timeline ids. -/
def hasNonIncreasingAdjacent : List Nat → Bool
  | a :: b :: rest => b ≤ a || hasNonIncreasingAdjacent (b :: rest)
  | _ => false

/-- Strict increase of a list of ids, continuing from an optional
previous id. -/
def strictAfter : Option Nat → List Nat → Bool
  | _, [] => true
  | none, t :: rest => strictAfter (some t) rest
  | some l, t :: rest => decide (l < t) && strictAfter (some t) rest

/-! ## Backup Chain Selector (`do_restore`, restore.c:140-198) -/

/-- The acceptance test of the base-backup scan (restore.c:140-159): the
entry is not skipped (mode at least FULL and status OK) and is
timeline-satisfied.  The `#ifndef HAVE_LIBZ` compression gate is absent
in the ordinary zlib-enabled build being modelled. -/
def acceptBase (timelines : List PgTimeLine) (b : Backup) : Bool :=
  decide (BackupMode.rank .BACKUP_MODE_FULL ≤ b.backup_mode.rank) &&
  b.status == .BACKUP_STATUS_OK &&
  satisfy_timeline timelines b

/-- The base-backup scan: first catalog index (newest first, index 0 is
the most recent backup) whose entry is accepted, together with that
entry. -/
def findBase (timelines : List PgTimeLine) : List Backup → Option (Nat × Backup)
  | [] => none
  | b :: rest =>
    if acceptBase timelines b then some (0, b)
    else (findBase timelines rest).map (fun p => (p.1 + 1, p.2))

/-- The acceptance test of the incremental scan (restore.c:176-198):
status OK, same timeline as the base backup, mode at least INCREMENTAL,
and timeline-satisfied. -/
def acceptIncr (timelines : List PgTimeLine) (base b : Backup) : Bool :=
  b.status == .BACKUP_STATUS_OK && b.tli == base.tli &&
  decide (BackupMode.rank .BACKUP_MODE_INCREMENTAL ≤ b.backup_mode.rank) &&
  satisfy_timeline timelines b

/-- Whether the incremental scan selects catalog position `i`. -/
def incrHit (timelines : List PgTimeLine) (base : Backup)
    (backups : List Backup) (i : Nat) : Bool :=
  match backups[i]? with
  | some b => acceptIncr timelines base b
  | none => false

/-- The catalog positions restored by the incremental scan, in its walk
order `baseIdx - 1, baseIdx - 2, ..., 0`. -/
def incrIndices (timelines : List PgTimeLine) (base : Backup)
    (backups : List Backup) (baseIdx : Nat) : List Nat :=
  ((List.range baseIdx).reverse).filter (incrHit timelines base backups)

/-- `last_restored_index` after the incremental scan: each accepted
position overwrites it, starting from the base position. -/
def lastRestoredIndex (timelines : List PgTimeLine) (base : Backup)
    (backups : List Backup) (baseIdx : Nat) : Nat :=
  (incrIndices timelines base backups baseIdx).foldl (fun _ i => i) baseIdx

/-! ## File Synchronizer (`restore_database`, restore.c:288-456) -/

/-- `BLCKSZ` of the server build; an external compiled constant
(PostgreSQL default 8kB). -/
def BLCKSZ : Nat := 8192

/-- `XLOG_BLCKSZ` of the server build; an external compiled constant
(PostgreSQL default 8kB). -/
def XLOG_BLCKSZ : Nat := 8192

/-- All paths of a backup's database manifest, with no filtering: this is
what the deletion pass re-reads (restore.c:418), sentinel entries
included. -/
def manifestPaths (b : Backup) : List String := b.dbFiles.map (fun f => f.path)

/-- The paths the restore loop actually copies (restore.c:368-407):
non-directory entries whose `write_size` is not the `BYTES_INVALID`
sentinel. -/
def capturedFilePaths (b : Backup) : List String :=
  (b.dbFiles.filter (fun f => !f.isdir && f.write_size.isSome)).map (fun f => f.path)

/-- The directory entries of the manifest, created by the backup's
recorded `mkdirs.sh` directory-creation script (restore.c:321-350; the
script itself is external data recording the manifest's directories). -/
def dirPaths (b : Backup) : List String :=
  (b.dbFiles.filter (fun f => f.isdir)).map (fun f => f.path)

/-- The deletion pass (restore.c:409-442): every destination entry
outside the operator-configured exclusion set (`pgdata_exclude`) that is
absent from the manifest path list is deleted; in the path-set model the
survivors are exactly the members of the manifest list plus the excluded
entries.  (The path-descending sort / binary search of the code realize
this same entry-wise membership test while keeping deletion leaf-first.) -/
def deletionPass (keep excl : List String) (dest : Finset String) : Finset String :=
  dest.filter (fun p => p ∈ keep ∨ p ∈ excl)

/-- `restore_database` on the destination path set: fatal
`ERROR_PG_INCOMPATIBLE` on a block-size mismatch (restore.c:298-306);
in check (dry-run) mode no mutation; otherwise create the manifest's
directories, copy the captured files, run the deletion pass against the
re-read (unfiltered) manifest, and finally remove `postmaster.pid`
(restore.c:444-448). -/
def restore_database (excl : List String) (check : Bool) (backup : Backup)
    (dest : Finset String) : Except RestoreError (Finset String) :=
  if backup.block_size ≠ BLCKSZ then .error .ERROR_PG_INCOMPATIBLE
  else if backup.wal_block_size ≠ XLOG_BLCKSZ then .error .ERROR_PG_INCOMPATIBLE
  else if check then .ok dest
  else
    let dest1 := dest ∪ (dirPaths backup).toFinset ∪ (capturedFilePaths backup).toFinset
    let dest2 := deletionPass (manifestPaths backup) excl dest1
    .ok (dest2.erase "postmaster.pid")

/-! ## Restore Orchestrator (`do_restore`, restore.c:34-283) -/

/-- The observable steps of one restore run, in program order. -/
inductive Event
  | BackupOnlineFiles
  | ClearDestination
  | RestoreTimelineHistoryFiles
  | ReadTimeLineHistoryEvt
  | RestoreDatabaseEvt (b : Backup)
  | DeletionPassEvt (b : Backup)
  | RestoreArchiveLogsEvt (b : Backup)
  | RestoreOnlineFilesEvt
  | CreateRecoveryConfEvt
deriving DecidableEq

/-- The events of one successful `restore_database` call: the
application itself, followed by its deletion pass when not in check
mode (the pass sits inside `restore_database`, restore.c:409-442). -/
def dbEvents (check : Bool) (b : Backup) : List Event :=
  .RestoreDatabaseEvt b :: (if check then [] else [.DeletionPassEvt b])

/-- Recognize a deletion-pass event in a trace. -/
def isDeletionPassEvt (e : Event) : Bool :=
  match e with
  | .DeletionPassEvt _ => true
  | _ => false

/-- Recognize a `restore_database` application event in a trace. -/
def isRestoreDatabaseEvt (e : Event) : Bool :=
  match e with
  | .RestoreDatabaseEvt _ => true
  | _ => false

/-- The incremental loop of `do_restore` (restore.c:176-198) over the
walk order `idxs` (instantiated at `baseIdx-1, ..., 0`): skipped entries
leave no trace; each accepted entry is restored, updating the
destination and `last_restored_index`; a fatal `restore_database`
error aborts the walk.  Returns (emitted events, destination,
last restored index, error). -/
def applyIncrementals (excl : List String) (check : Bool)
    (timelines : List PgTimeLine) (base : Backup) (backups : List Backup) :
    List Nat → Finset String → Nat →
    List Event × Finset String × Nat × Option RestoreError
  | [], dest, last => ([], dest, last, none)
  | i :: rest, dest, last =>
    match backups[i]? with
    | none => applyIncrementals excl check timelines base backups rest dest last
    | some b =>
      if acceptIncr timelines base b then
        match restore_database excl check b dest with
        | .error e => ([Event.RestoreDatabaseEvt b], dest, last, some e)
        | .ok dest2 =>
          let r := applyIncrementals excl check timelines base backups rest dest2 i
          (dbEvents check b ++ r.1, r.2.1, r.2.2.1, r.2.2.2)
      else
        applyIncrementals excl check timelines base backups rest dest last

/-- The acceptance test of the archived-WAL loop (restore.c:216-240):
status OK, `HAVE_ARCLOG`, and timeline-satisfied (the `tli` itself is
deliberately not compared, restore.c:202-203). -/
def acceptArchive (timelines : List PgTimeLine) (b : Backup) : Bool :=
  b.status == .BACKUP_STATUS_OK && b.with_arclog && satisfy_timeline timelines b

/-- The archived-WAL loop of `do_restore` over walk order `idxs`
(instantiated at `last_restored_index, ..., 0`). -/
def applyArchives (timelines : List PgTimeLine) (backups : List Backup)
    (idxs : List Nat) : List Event :=
  idxs.filterMap (fun i =>
    match backups[i]? with
    | some b =>
      if acceptArchive timelines b then some (Event.RestoreArchiveLogsEvt b) else none
    | none => none)

/-- The inputs of one `do_restore` invocation, after the argument /
lock / server-not-running preconditions and target-timeline resolution
(restore.c:54-98) have passed. -/
structure RestoreEnv where
  check : Bool
  backups : List Backup
  targetTLI : Nat
  historyFile : Option (List HistoryLine)
  excl : List String

/-- The result of one `do_restore` invocation: event trace, final
destination path set, fatal error if any, the final
`last_restored_index` (on success), and (check mode) the WAL continuity
seed `(needId, needSeg)` of restore.c:208-214. -/
structure RestoreOutcome where
  trace : List Event
  dest : Finset String
  err : Option RestoreError
  lastIdx : Option Nat
  walSeed : Option (Nat × Nat)
deriving DecidableEq

/-- The continuity-checker seed (restore.c:211-213):
`needId = start_lsn.xlogid`, `needSeg = start_lsn.xrecoff / XLogSegSize`. -/
def seedWal (b : Backup) : Nat × Nat :=
  (b.start_lsn.xlogid, b.start_lsn.xrecoff / XLogSegSize)

/-- `do_restore` (restore.c:34-283): snapshot online WAL/serverlog, clear
the destination when not in check mode (restore.c:100-125), restore the
timeline-history files, resolve the timeline chain, pick the base
backup (fatal `ERROR_NO_BACKUP` when none), restore it, walk the
incrementals, compute the check-mode WAL seed, walk the archived-WAL
backups, replay the online WAL and write `recovery.conf`. -/
def doRestore (env : RestoreEnv) (dest0 : Finset String) : RestoreOutcome :=
  let tr1 : List Event :=
    if env.check then [.BackupOnlineFiles, .RestoreTimelineHistoryFiles]
    else [.BackupOnlineFiles, .ClearDestination, .RestoreTimelineHistoryFiles]
  let dest1 : Finset String := if env.check then dest0 else ∅
  match readTimeLineHistory env.targetTLI env.historyFile with
  | .error e => ⟨tr1, dest1, some e, none, none⟩
  | .ok timelines =>
    match findBase timelines env.backups with
    | none => ⟨tr1 ++ [.ReadTimeLineHistoryEvt], dest1, some .ERROR_NO_BACKUP, none, none⟩
    | some (baseIdx, base) =>
      match restore_database env.excl env.check base dest1 with
      | .error e =>
        ⟨tr1 ++ [.ReadTimeLineHistoryEvt, .RestoreDatabaseEvt base], dest1, some e,
          none, none⟩
      | .ok dest2 =>
        let tr3 := tr1 ++ [.ReadTimeLineHistoryEvt] ++ dbEvents env.check base
        let r := applyIncrementals env.excl env.check timelines base env.backups
          ((List.range baseIdx).reverse) dest2 baseIdx
        match r.2.2.2 with
        | some e => ⟨tr3 ++ r.1, r.2.1, some e, none, none⟩
        | none =>
          let last := r.2.2.1
          let seed := if env.check then (env.backups[last]?).map seedWal else none
          let tr4 := tr3 ++ r.1
            ++ applyArchives timelines env.backups ((List.range (last + 1)).reverse)
          ⟨tr4 ++ [.RestoreOnlineFilesEvt, .CreateRecoveryConfEvt], r.2.1, none,
            some last, seed⟩

/-! ## Archive Restorer (`restore_archive_logs`, restore.c:462-543) -/

/-- What `restore_archive_logs` does with one manifest entry. -/
inductive ArchiveAction
  | skipNotBackedUp
  | skipHistory
  | decompressCopy
  | removeThenLink
deriving DecidableEq

/-- The characters of the `".history"` literal of restore.c:508-509. -/
def historySuffix : List Char := ['.', 'h', 'i', 's', 't', 'o', 'r', 'y']

/-- `strstr`: index of the first occurrence of `pat` in `hay`, if any. -/
def strstrIdx (hay pat : List Char) : Option Nat :=
  if pat.isPrefixOf hay then some 0
  else
    match hay with
    | [] => none
    | _ :: t => (strstrIdx t pat).map (fun n => n + 1)

/-- The history-file test of restore.c:508-509:
`strstr(file->path, ".history") == file->path + strlen(file->path) -
strlen(".history")`, i.e. the FIRST occurrence of `".history"` sits at
the suffix position (`strstr` returning NULL compares unequal). -/
def historySkipTest (path : String) : Bool :=
  strstrIdx path.toList historySuffix
    == some (path.toList.length - historySuffix.length)

/-- The spec's predicate: the entry's name ends in the history-file
suffix. -/
def nameEndsWithHistory (path : String) : Bool :=
  historySuffix.isSuffixOf path.toList

/-- The per-entry dispatch of `restore_archive_logs` (restore.c:482-539):
skip the `BYTES_INVALID` sentinel, skip history files (per
`historySkipTest`), decompressing copy (overwriting) when the backup is
compressed, else remove any pre-existing destination file (ENOENT
ignored) and symlink to the backup's stored copy. -/
def archiveAction (backup : Backup) (f : PgFile) : ArchiveAction :=
  if f.write_size = none then .skipNotBackedUp
  else if historySkipTest f.path then .skipHistory
  else if backup.compress_data then .decompressCopy
  else .removeThenLink

/-! ## WAL Continuity Checker (`search_next_wal`, restore.c:922-971) -/

/-- `XLogSegsPerFile = 0xFFFFFFFF / XLogSegSize`, the segment count per
log file of the WAL naming scheme; an external compiled constant. -/
def XLogSegsPerFile : Nat := 4294967295 / XLogSegSize

/-- `NextLogSeg`: advance one segment with log-file rollover. -/
def NextLogSeg (id seg : Nat) : Nat × Nat :=
  if XLogSegsPerFile - 1 ≤ seg then (id + 1, 0) else (id, seg + 1)

/-- The inner timeline scan of `search_next_wal` (restore.c:936-945,
964-966): find the first chain entry for which the current segment's
file exists (`ex` abstracts the `stat` probe under the searched path);
on success, drop every chain entry after the found one ("delete old
TLI") and return the found file name with the kept chain. -/
def findWalKeep (ex : WalFileName → Bool) (id seg : Nat) :
    List PgTimeLine → Option (WalFileName × List PgTimeLine)
  | [] => none
  | t :: rest =>
    if ex ⟨t.tli, id, seg⟩ then some (⟨t.tli, id, seg⟩, [t])
    else (findWalKeep ex id seg rest).map (fun p => (p.1, t :: p.2))

/-- What `search_next_wal` prints when it stops (restore.c:947-956):
nothing when no segment was found, the single file name when exactly one
was, and a hyphenated `first - last` range otherwise. -/
inductive WalReport
  | nothingFound
  | single (f : WalFileName)
  | range (first last : WalFileName)
deriving DecidableEq

/-- Assemble the stop-time report from the found count, the first found
file name (printed when `count` reached 1) and the previous found file
name (`pre_xlogfname`). -/
def mkWalReport : Nat → Option WalFileName → Option WalFileName → WalReport
  | 0, _, _ => .nothingFound
  | 1, some f, _ => .single f
  | _ + 2, some f, some p => .range f p
  | _, _, _ => .nothingFound

/-- The outer `for (;;)` loop of `search_next_wal`, with explicit fuel
(the C loop terminates because the probed file set is finite): while the
current segment exists under some remaining chain entry, record it,
truncate the chain and advance one segment; when it is found nowhere,
stop and report.  Returns the report, the final `(needId, needSeg)` and
the remaining chain; `none` only when fuel runs out. -/
def searchLoop (ex : WalFileName → Bool) :
    Nat → Nat → Nat → List PgTimeLine → Nat → Option WalFileName → Option WalFileName →
    Option (WalReport × (Nat × Nat) × List PgTimeLine)
  | 0, _, _, _, _, _, _ => none
  | fuel + 1, id, seg, tls, count, first, pre =>
    match findWalKeep ex id seg tls with
    | none => some (mkWalReport count first pre, (id, seg), tls)
    | some (w, tls2) =>
      searchLoop ex fuel (NextLogSeg id seg).1 (NextLogSeg id seg).2 tls2
        (count + 1) (if count = 0 then some w else first) (some w)

/-- `search_next_wal` entry point: zero found so far. -/
def search_next_wal (ex : WalFileName → Bool) (fuel id seg : Nat)
    (tls : List PgTimeLine) : Option (WalReport × (Nat × Nat) × List PgTimeLine) :=
  searchLoop ex fuel id seg tls 0 none none

/-! ## Concrete instances used in example runs and witnesses -/

/-- An LSN in log file 0 at byte offset `n`. -/
def exLSN (n : Nat) : XLogRecPtr := ⟨0, n⟩

/-- FULL backup on timeline 1 with `stop_lsn` 10, status OK. -/
def exFull10 : Backup :=
  ⟨.BACKUP_MODE_FULL, .BACKUP_STATUS_OK, 1, exLSN 1, exLSN 10, 8192, 8192,
    false, true, [⟨"base", true, none⟩, ⟨"base/1", false, some 8⟩], []⟩

/-- INCREMENTAL backup on timeline 1 with `stop_lsn` 20, status OK; its
manifest lists `base/1` with the not-captured sentinel. -/
def exIncr20 : Backup :=
  ⟨.BACKUP_MODE_INCREMENTAL, .BACKUP_STATUS_OK, 1, exLSN 12, exLSN 20, 8192, 8192,
    false, true,
    [⟨"base", true, none⟩, ⟨"base/1", false, none⟩, ⟨"base/2", false, some 4⟩], []⟩

/-- FULL backup on timeline 1 with `stop_lsn` 5, status OK. -/
def exFull5 : Backup :=
  ⟨.BACKUP_MODE_FULL, .BACKUP_STATUS_OK, 1, exLSN 0, exLSN 5, 8192, 8192,
    false, true, [⟨"base", true, none⟩], []⟩

/-- A chain admitting timeline 1 up to end boundary 25. -/
def exChain25 : List PgTimeLine := [⟨1, exLSN 25⟩]

/-- A non-check run over the newest-first catalog `[INCR@20, FULL@10]`
with no history file: the chain restored is the FULL then the INCR. -/
def envTwoChain : RestoreEnv := ⟨false, [exIncr20, exFull10], 1, none, []⟩

/-- A non-check run whose history file has non-increasing ids. -/
def envCorrupt : RestoreEnv :=
  ⟨false, [exFull10], 3,
    some [HistoryLine.record 2 ⟨2, 0, 0⟩, HistoryLine.record 1 ⟨1, 0, 0⟩], []⟩

/-- A non-check run with an empty catalog. -/
def envNoBackup : RestoreEnv := ⟨false, [], 1, none, []⟩

/-- A check (dry-run) invocation over `[FULL@10]`. -/
def envCheckSeed : RestoreEnv := ⟨true, [exFull10], 1, none, []⟩

/-! ## Lemmas and claim theorems -/

theorem parseHistoryLines_eq_parseRecords (lines : List HistoryLine) :
    ∀ last acc, parseHistoryLines lines last acc
      = parseRecords (recordsOf lines) last acc := by
  induction lines with
  | nil => intro last acc; rfl
  | cons l rest ih =>
    intro last acc
    cases l with
    | blank => simpa [parseHistoryLines, recordsOf, List.filterMap] using ih last acc
    | record t f =>
      simp only [parseHistoryLines, recordsOf, List.filterMap_cons, parseRecords]
      by_cases h : tliNotIncreasing last t = true
      · simp [h]
      · simp only [h]
        rw [if_neg, if_neg]
        · exact ih _ _
        · simp [h]
        · simp [h]

theorem parseRecords_isOk_eq_strictAfter (recs : List (Nat × WalFileName)) :
    ∀ last acc, (parseRecords recs last acc).isOk
      = strictAfter (last.map (fun l => l.tli)) (recs.map (fun p => p.1)) := by
  induction recs with
  | nil => intro last acc; cases last <;> rfl
  | cons p rest ih =>
    intro last acc
    obtain ⟨t, f⟩ := p
    cases last with
    | none =>
      simp only [parseRecords, tliNotIncreasing, if_neg, Bool.false_eq_true,
        not_false_iff]
      rw [ih]
      rfl
    | some l =>
      simp only [parseRecords, tliNotIncreasing, List.map_cons, Option.map_some]
      by_cases h : t ≤ l.tli
      · simp only [strictAfter, decide_eq_true_eq]
        rw [if_pos (by simpa using h)]
        simp [Except.isOk, Except.toBool, Nat.not_lt.mpr h]
      · rw [if_neg (by simpa using h)]
        rw [ih]
        simp [strictAfter, Nat.lt_of_not_le h]

theorem parseRecords_ok_or_corrupted (recs : List (Nat × WalFileName)) :
    ∀ last acc, (∃ r, parseRecords recs last acc = .ok r)
      ∨ parseRecords recs last acc = .error .ERROR_CORRUPTED := by
  induction recs with
  | nil => intro last acc; exact Or.inl ⟨(acc, last), rfl⟩
  | cons p rest ih =>
    intro last acc
    obtain ⟨t, f⟩ := p
    by_cases h : tliNotIncreasing last t = true
    · exact Or.inr (by simp [parseRecords, h])
    · simpa [parseRecords, h] using ih (some ⟨t, xlog_logfname2lsn f⟩)
        (⟨t, xlog_logfname2lsn f⟩ :: acc)

theorem getLast?_cons_or {α : Type} (a : α) (l : List α) (o : Option α) :
    ((a :: l).getLast?).or o = (a :: l).getLast? := by
  induction l generalizing a with
  | nil => simp [Option.or]
  | cons b bs ih => rw [List.getLast?_cons_cons]; exact ih b

theorem parseRecords_last (recs : List (Nat × WalFileName)) :
    ∀ last acc res lst, parseRecords recs last acc = .ok (res, lst) →
      lst.map (fun l => l.tli)
        = ((recs.map (fun p => p.1)).getLast?).or (last.map (fun l => l.tli)) := by
  induction recs with
  | nil =>
    intro last acc res lst h
    simp only [parseRecords, Except.ok.injEq, Prod.mk.injEq] at h
    simp [← h.2]
  | cons p rest ih =>
    intro last acc res lst h
    obtain ⟨t, f⟩ := p
    by_cases hc : tliNotIncreasing last t = true
    · simp [parseRecords, hc] at h
    · simp only [parseRecords, hc, Bool.false_eq_true, if_false] at h
      have := ih _ _ _ _ h
      rw [this]
      cases hrest : rest.map (fun p => p.1) with
      | nil =>
        simp only [List.map_cons]
        rw [hrest]
        simp [Option.or]
      | cons a as =>
        simp only [List.map_cons]
        rw [hrest, List.getLast?_cons_cons, getLast?_cons_or, getLast?_cons_or]

theorem strictAfter_false_of_nonIncreasing (l : List Nat) :
    ∀ o, hasNonIncreasingAdjacent l = true → strictAfter o l = false := by
  induction l with
  | nil => intro o h; simp [hasNonIncreasingAdjacent] at h
  | cons a rest ih =>
    intro o h
    cases rest with
    | nil => simp [hasNonIncreasingAdjacent] at h
    | cons b rest2 =>
      have h2 : b ≤ a ∨ hasNonIncreasingAdjacent (b :: rest2) = true := by
        simpa [hasNonIncreasingAdjacent] using h
      have htail : strictAfter (some a) (b :: rest2) = false := by
        rcases h2 with hba | hrec
        · have hnb : ¬ a < b := Nat.not_lt.mpr hba
          simp [strictAfter, hnb]
        · exact ih (some a) hrec
      cases o with
      | none => exact htail
      | some x =>
        show (decide (x < a) && strictAfter (some a) (b :: rest2)) = false
        rw [htail, Bool.and_false]

/-- C5: a history file with a parsed line whose timeline id is not
strictly greater than the previous parsed line's id is rejected with the
fatal corrupted-history error, and so is a requested target timeline id
that is not strictly greater than the last parsed ancestor's id. -/
theorem C5_corrupted_history_rejection :
    (∀ (lines : List HistoryLine) (target : Nat),
        hasNonIncreasingAdjacent (recordTlis lines) = true →
        readTimeLineHistory target (some lines) = .error .ERROR_CORRUPTED) ∧
    (∀ (lines : List HistoryLine) (target lastT : Nat),
        (recordTlis lines).getLast? = some lastT → target ≤ lastT →
        readTimeLineHistory target (some lines) = .error .ERROR_CORRUPTED) := by
  constructor
  · intro lines target hadj
    rcases parseRecords_ok_or_corrupted (recordsOf lines) none [] with ⟨r, hr⟩ | hr
    · exfalso
      have hok := parseRecords_isOk_eq_strictAfter (recordsOf lines) none []
      rw [hr] at hok
      have hfalse : strictAfter (Option.map (fun l => l.tli) (none : Option PgTimeLine))
          (List.map (fun p => p.1) (recordsOf lines)) = false :=
        strictAfter_false_of_nonIncreasing _ _ hadj
      rw [hfalse] at hok
      exact Bool.true_eq_false.mp hok
    · unfold readTimeLineHistory
      simp only [Option.getD_some]
      rw [parseHistoryLines_eq_parseRecords, hr]
      rfl
  · intro lines target lastT hlast htarget
    rcases parseRecords_ok_or_corrupted (recordsOf lines) none [] with ⟨r, hr⟩ | hr
    · obtain ⟨res, lst⟩ := r
      have hl := parseRecords_last (recordsOf lines) none [] res lst hr
      rw [recordTlis] at hlast
      rw [hlast] at hl
      cases lst with
      | none => simp [Option.or] at hl
      | some l =>
        have hltli : l.tli = lastT := by simpa [Option.or] using hl
        have hcheck : tliNotIncreasing (some l) target = true := by
          simp [tliNotIncreasing, hltli, htarget]
        unfold readTimeLineHistory
        simp only [Option.getD_some]
        rw [parseHistoryLines_eq_parseRecords, hr]
        show (if tliNotIncreasing (some l) target = true then
            (Except.error RestoreError.ERROR_CORRUPTED : Except RestoreError (List PgTimeLine))
          else .ok (⟨target, unboundedLSN⟩ :: res)) = .error .ERROR_CORRUPTED
        rw [if_pos hcheck]
    · unfold readTimeLineHistory
      simp only [Option.getD_some]
      rw [parseHistoryLines_eq_parseRecords, hr]
      rfl

/-- C5 witness: the file `(2, ...)` then `(1, ...)` fails as corrupted,
and target timeline 2 with last ancestor 2 fails as corrupted. -/
theorem C5_corrupted_history_rejection_witness :
    readTimeLineHistory 3
        (some [HistoryLine.record 2 ⟨2, 0, 0⟩, HistoryLine.record 1 ⟨1, 0, 0⟩])
      = .error .ERROR_CORRUPTED ∧
    readTimeLineHistory 2
        (some [HistoryLine.record 1 ⟨1, 0, 0⟩, HistoryLine.record 2 ⟨2, 0, 0⟩])
      = .error .ERROR_CORRUPTED :=
  ⟨C5_corrupted_history_rejection.1 _ 3 (by decide),
   C5_corrupted_history_rejection.2 _ 2 2 (by decide) (by decide)⟩

/-- C4: a history file whose record lines are `(1, X)`, `(2, Y)` resolved
for target timeline 3 yields exactly the three-entry chain (newest first
as built by `parray_insert(result, 0, ...)`) — target 3 with unbounded
end boundary, then ancestors 2 and 1 with their decoded end LSNs, ids
strictly increasing from root to leaf — and a missing history file is
not an error, yielding the single-entry chain of the target alone. -/
theorem C4_timeline_chain_build :
    (∀ (lines : List HistoryLine) (X Y : WalFileName),
        recordsOf lines = [(1, X), (2, Y)] →
        readTimeLineHistory 3 (some lines)
          = .ok [⟨3, unboundedLSN⟩, ⟨2, xlog_logfname2lsn Y⟩, ⟨1, xlog_logfname2lsn X⟩]) ∧
    (∀ t : Nat, readTimeLineHistory t none = .ok [⟨t, unboundedLSN⟩]) := by
  constructor
  · intro lines X Y hrec
    unfold readTimeLineHistory
    simp only [Option.getD_some]
    rw [parseHistoryLines_eq_parseRecords, hrec]
    rfl
  · intro t
    rfl

/-- C4 witness: a concrete such file (with an interspersed blank line)
and a concrete missing-file target. -/
theorem C4_timeline_chain_build_witness :
    readTimeLineHistory 3
        (some [HistoryLine.blank, HistoryLine.record 1 ⟨1, 0, 7⟩,
               HistoryLine.blank, HistoryLine.record 2 ⟨2, 1, 5⟩])
      = .ok [⟨3, unboundedLSN⟩, ⟨2, xlog_logfname2lsn ⟨2, 1, 5⟩⟩,
             ⟨1, xlog_logfname2lsn ⟨1, 0, 7⟩⟩] ∧
    readTimeLineHistory 7 none = .ok [⟨7, unboundedLSN⟩] :=
  ⟨C4_timeline_chain_build.1 _ ⟨1, 0, 7⟩ ⟨2, 1, 5⟩ (by decide),
   C4_timeline_chain_build.2 7⟩

theorem findBase_some_spec (tl : List PgTimeLine) (bs : List Backup) :
    ∀ i b, findBase tl bs = some (i, b) →
      bs[i]? = some b ∧ acceptBase tl b = true ∧
      ∀ j, j < i → ∀ bj, bs[j]? = some bj → acceptBase tl bj = false := by
  induction bs with
  | nil => intro i b h; simp [findBase] at h
  | cons hd rest ih =>
    intro i b h
    rw [findBase] at h
    by_cases hacc : acceptBase tl hd = true
    · rw [if_pos hacc] at h
      obtain ⟨h1, h2⟩ := Prod.mk.inj (Option.some.inj h)
      subst h1; subst h2
      refine ⟨by simp, hacc, ?_⟩
      intro j hj bj _
      exact absurd hj (Nat.not_lt_zero j)
    · rw [if_neg hacc] at h
      rcases Option.map_eq_some'.mp h with ⟨⟨i2, b2⟩, hp, heq⟩
      obtain ⟨h1, h2⟩ := Prod.mk.inj heq
      subst h1; subst h2
      obtain ⟨hg, ha, hmin⟩ := ih i2 b2 hp
      refine ⟨by simpa using hg, ha, ?_⟩
      intro j hj bj hbj
      cases j with
      | zero =>
        have hbd : bj = hd := by
          have := hbj
          simp at this
          exact this.symm
        subst hbd
        exact Bool.eq_false_iff.mpr (fun hc => hacc hc)
      | succ k =>
        have hk : k < i2 := Nat.lt_of_succ_lt_succ hj
        exact hmin k hk bj (by simpa using hbj)

theorem findBase_none_iff (tl : List PgTimeLine) (bs : List Backup) :
    findBase tl bs = none ↔ ∀ b ∈ bs, acceptBase tl b = false := by
  induction bs with
  | nil => simp [findBase]
  | cons hd rest ih =>
    rw [findBase]
    by_cases hacc : acceptBase tl hd = true
    · simp [hacc]
    · rw [if_neg hacc]
      simp only [Option.map_eq_none', List.mem_cons]
      rw [ih]
      constructor
      · intro hall b hb
        rcases hb with hb | hb
        · subst hb; exact Bool.eq_false_iff.mpr (fun hc => hacc hc)
        · exact hall b hb
      · intro hall b hb
        exact hall b (Or.inr hb)

theorem foldl_replace_mem (l : List Nat) :
    ∀ d, l ≠ [] → l.foldl (fun _ i => i) d ∈ l := by
  induction l with
  | nil => intro d h; exact absurd rfl h
  | cons a t ih =>
    intro d _
    rw [List.foldl_cons]
    by_cases ht : t = []
    · subst ht; exact List.mem_singleton.mpr rfl
    · exact List.mem_cons_of_mem a (ih a ht)

theorem foldl_replace_le (l : List Nat) :
    l.Pairwise (fun a b => b < a) →
    ∀ d x, x ∈ l → l.foldl (fun _ i => i) d ≤ x := by
  induction l with
  | nil => intro _ d x hx; simp at hx
  | cons a t ih =>
    intro hp d x hx
    rw [List.foldl_cons]
    by_cases ht : t = []
    · subst ht
      have hxa : x = a := by simpa using hx
      subst hxa
      exact Nat.le_refl x
    · have hmem : t.foldl (fun _ i => i) a ∈ t := foldl_replace_mem t a ht
      rcases List.mem_cons.mp hx with hxa | hxt
      · subst hxa
        exact Nat.le_of_lt ((List.pairwise_cons.mp hp).1 _ hmem)
      · exact ih (List.pairwise_cons.mp hp).2 a x hxt

theorem applyIncrementals_spec (excl : List String) (check : Bool)
    (tl : List PgTimeLine) (base : Backup) (bs : List Backup)
    (hblk : ∀ (i : Nat) (b : Backup), bs[i]? = some b →
      b.block_size = BLCKSZ ∧ b.wal_block_size = XLOG_BLCKSZ) :
    ∀ (idxs : List Nat) (dest : Finset String) (last : Nat),
      (applyIncrementals excl check tl base bs idxs dest last).1
        = ((idxs.filter (incrHit tl base bs)).filterMap (fun i => bs[i]?)).flatMap
            (dbEvents check) ∧
      (applyIncrementals excl check tl base bs idxs dest last).2.2.1
        = (idxs.filter (incrHit tl base bs)).foldl (fun _ i => i) last ∧
      (applyIncrementals excl check tl base bs idxs dest last).2.2.2 = none := by
  intro idxs
  induction idxs with
  | nil => intro dest last; exact ⟨rfl, rfl, rfl⟩
  | cons i rest ih =>
    intro dest last
    cases hbi : bs[i]? with
    | none =>
      have hhit : incrHit tl base bs i = false := by simp [incrHit, hbi]
      simp only [applyIncrementals, hbi, List.filter_cons, hhit]
      exact ih dest last
    | some b =>
      by_cases hacc : acceptIncr tl base b = true
      · have hhit : incrHit tl base bs i = true := by simp [incrHit, hbi, hacc]
        obtain ⟨hb1, hb2⟩ := hblk i b hbi
        have hok : ∃ d2, restore_database excl check b dest = .ok d2 := by
          unfold restore_database
          rw [if_neg (by simp [hb1]), if_neg (by simp [hb2])]
          by_cases hc : check = true
          · exact ⟨dest, by rw [if_pos hc]⟩
          · exact ⟨_, by rw [if_neg hc]⟩
        obtain ⟨d2, hok⟩ := hok
        simp only [applyIncrementals, hbi, hacc, if_true, hok, List.filter_cons, hhit,
          List.filterMap_cons, List.flatMap_cons]
        obtain ⟨ih1, ih2, ih3⟩ := ih d2 i
        exact ⟨by rw [ih1], by rw [ih2]; rfl, by rw [ih3]⟩
      · have hhit : incrHit tl base bs i = false := by simp [incrHit, hbi, hacc]
        have haccf : ¬ (acceptIncr tl base b = true) := hacc
        simp only [applyIncrementals, hbi, List.filter_cons, hhit, if_neg haccf]
        exact ih dest last

/-- C1: the base-backup scan walks the catalog from index 0 (newest)
upward, skipping every entry below FULL mode or with status other than
OK, and accepts the first remaining entry that is timeline-satisfied
(some chain entry with the same `tli` and an end boundary strictly above
the backup's `stop_lsn`); with no acceptable entry `do_restore` fails
fatally with `ERROR_NO_BACKUP`; and on the catalog
`[FULL@tli1 stop=10 OK, INCR@tli1 stop=20 OK, FULL@tli1 stop=5 OK]` with
a chain admitting tli 1 up to boundary 25, the FULL with stop 10 at
index 0 is chosen as base. -/
theorem C1_base_backup_selection :
    (∀ (tl : List PgTimeLine) (bs : List Backup) (i : Nat) (b : Backup),
        findBase tl bs = some (i, b) →
        bs[i]? = some b ∧
        (BackupMode.rank .BACKUP_MODE_FULL ≤ b.backup_mode.rank ∧
          b.status = .BACKUP_STATUS_OK ∧ satisfy_timeline tl b = true) ∧
        ∀ j, j < i → ∀ bj, bs[j]? = some bj → acceptBase tl bj = false) ∧
    (∀ (env : RestoreEnv) (dest0 : Finset String) (tl : List PgTimeLine),
        readTimeLineHistory env.targetTLI env.historyFile = .ok tl →
        findBase tl env.backups = none →
        (doRestore env dest0).err = some .ERROR_NO_BACKUP) ∧
    findBase exChain25 [exFull10, exIncr20, exFull5] = some (0, exFull10) := by
  refine ⟨?_, ?_, by decide⟩
  · intro tl bs i b h
    obtain ⟨hg, ha, hmin⟩ := findBase_some_spec tl bs i b h
    refine ⟨hg, ?_, hmin⟩
    simp only [acceptBase, Bool.and_eq_true, decide_eq_true_eq, beq_iff_eq] at ha
    exact ⟨ha.1.1, ha.1.2, ha.2⟩
  · intro env dest0 tl hhist hnone
    unfold doRestore
    rw [hhist]
    dsimp only
    rw [hnone]

/-- C1 witness: the selected base of the concrete catalog is at index 0,
is FULL, OK and timeline-satisfied; and a run over an empty catalog ends
in `ERROR_NO_BACKUP`. -/
theorem C1_base_backup_selection_witness :
    (([exFull10, exIncr20, exFull5] : List Backup)[0]? = some exFull10 ∧
      (BackupMode.rank .BACKUP_MODE_FULL ≤ exFull10.backup_mode.rank ∧
        exFull10.status = .BACKUP_STATUS_OK ∧
        satisfy_timeline exChain25 exFull10 = true)) ∧
    (doRestore envNoBackup ∅).err = some .ERROR_NO_BACKUP := by
  refine ⟨?_, ?_⟩
  · have h := C1_base_backup_selection.1 exChain25 [exFull10, exIncr20, exFull5]
      0 exFull10 C1_base_backup_selection.2.2
    exact ⟨h.1, h.2.1⟩
  · exact C1_base_backup_selection.2.1 envNoBackup ∅ [⟨1, unboundedLSN⟩] (by rfl) (by rfl)

theorem incrIndices_mem (tl : List PgTimeLine) (base : Backup) (bs : List Backup)
    (baseIdx : Nat) (i : Nat) :
    i ∈ incrIndices tl base bs baseIdx ↔
      (i < baseIdx ∧ ∃ b, bs[i]? = some b ∧ acceptIncr tl base b = true) := by
  unfold incrIndices
  rw [List.mem_filter, List.mem_reverse, List.mem_range]
  constructor
  · rintro ⟨hlt, hhit⟩
    refine ⟨hlt, ?_⟩
    unfold incrHit at hhit
    cases hbi : bs[i]? with
    | none => rw [hbi] at hhit; simp at hhit
    | some b => rw [hbi] at hhit; exact ⟨b, rfl, hhit⟩
  · rintro ⟨hlt, b, hbi, hacc⟩
    refine ⟨hlt, ?_⟩
    unfold incrHit
    rw [hbi]
    exact hacc

theorem incrIndices_pairwise (tl : List PgTimeLine) (base : Backup)
    (bs : List Backup) (baseIdx : Nat) :
    (incrIndices tl base bs baseIdx).Pairwise (fun a b => b < a) :=
  (List.pairwise_reverse.mpr (List.pairwise_lt_range baseIdx)).filter
    (incrHit tl base bs)

theorem exTwoChain_blocks_ok :
    ∀ (i : Nat) (b : Backup), ([exIncr20, exFull10] : List Backup)[i]? = some b →
      b.block_size = BLCKSZ ∧ b.wal_block_size = XLOG_BLCKSZ := by
  intro i b hbi
  cases i with
  | zero =>
    have hb : b = exIncr20 := by simpa using hbi.symm
    subst hb; exact ⟨rfl, rfl⟩
  | succ k =>
    cases k with
    | zero =>
      have hb : b = exFull10 := by simpa using hbi.symm
      subst hb; exact ⟨rfl, rfl⟩
    | succ m => simp at hbi

/-- C2: with the base at newest-first catalog position `baseIdx`, the
incremental scan walks positions `baseIdx-1, ..., 0` in that order
(strictly decreasing), restoring exactly the entries that are
INCREMENTAL-or-above, status OK, on the base's timeline and
timeline-satisfied; non-matching entries are skipped without error (the
walk completes with no error when block sizes are compatible, its trace
being exactly the accepted entries' events); the last restored index
ends as the smallest matching position, or `baseIdx` when none matched;
and an entry with status other than OK is never selected. -/
theorem C2_incremental_selection :
    (∀ (tl : List PgTimeLine) (base : Backup) (bs : List Backup) (baseIdx i : Nat),
        i ∈ incrIndices tl base bs baseIdx ↔
          (i < baseIdx ∧ ∃ b, bs[i]? = some b ∧
            b.status = .BACKUP_STATUS_OK ∧ b.tli = base.tli ∧
            BackupMode.rank .BACKUP_MODE_INCREMENTAL ≤ b.backup_mode.rank ∧
            satisfy_timeline tl b = true)) ∧
    (∀ (tl : List PgTimeLine) (base : Backup) (bs : List Backup) (baseIdx : Nat),
        (incrIndices tl base bs baseIdx).Pairwise (fun a b => b < a)) ∧
    (∀ (tl : List PgTimeLine) (base : Backup) (bs : List Backup) (baseIdx : Nat),
        (incrIndices tl base bs baseIdx = [] →
          lastRestoredIndex tl base bs baseIdx = baseIdx) ∧
        (incrIndices tl base bs baseIdx ≠ [] →
          lastRestoredIndex tl base bs baseIdx ∈ incrIndices tl base bs baseIdx ∧
          ∀ j ∈ incrIndices tl base bs baseIdx,
            lastRestoredIndex tl base bs baseIdx ≤ j)) ∧
    (∀ (excl : List String) (check : Bool) (tl : List PgTimeLine) (base : Backup)
        (bs : List Backup) (baseIdx : Nat) (dest : Finset String),
        (∀ (i : Nat) (b : Backup), bs[i]? = some b →
          b.block_size = BLCKSZ ∧ b.wal_block_size = XLOG_BLCKSZ) →
        (applyIncrementals excl check tl base bs ((List.range baseIdx).reverse)
            dest baseIdx).1
          = ((incrIndices tl base bs baseIdx).filterMap (fun i => bs[i]?)).flatMap
              (dbEvents check) ∧
        (applyIncrementals excl check tl base bs ((List.range baseIdx).reverse)
            dest baseIdx).2.2.1 = lastRestoredIndex tl base bs baseIdx ∧
        (applyIncrementals excl check tl base bs ((List.range baseIdx).reverse)
            dest baseIdx).2.2.2 = none) ∧
    (∀ (tl : List PgTimeLine) (base : Backup) (bs : List Backup) (baseIdx i : Nat)
        (b : Backup), i ∈ incrIndices tl base bs baseIdx → bs[i]? = some b →
        b.status = .BACKUP_STATUS_OK) := by
  have hmem : ∀ (tl : List PgTimeLine) (base : Backup) (bs : List Backup)
      (baseIdx i : Nat),
      i ∈ incrIndices tl base bs baseIdx ↔
        (i < baseIdx ∧ ∃ b, bs[i]? = some b ∧
          b.status = .BACKUP_STATUS_OK ∧ b.tli = base.tli ∧
          BackupMode.rank .BACKUP_MODE_INCREMENTAL ≤ b.backup_mode.rank ∧
          satisfy_timeline tl b = true) := by
    intro tl base bs baseIdx i
    rw [incrIndices_mem]
    constructor
    · rintro ⟨hlt, b, hbi, hacc⟩
      simp only [acceptIncr, Bool.and_eq_true, decide_eq_true_eq, beq_iff_eq] at hacc
      exact ⟨hlt, b, hbi, hacc.1.1.1, hacc.1.1.2, hacc.1.2, hacc.2⟩
    · rintro ⟨hlt, b, hbi, h1, h2, h3, h4⟩
      refine ⟨hlt, b, hbi, ?_⟩
      simp only [acceptIncr, Bool.and_eq_true, decide_eq_true_eq, beq_iff_eq]
      exact ⟨⟨⟨h1, h2⟩, h3⟩, h4⟩
  refine ⟨hmem, incrIndices_pairwise, ?_, ?_, ?_⟩
  · intro tl base bs baseIdx
    constructor
    · intro hnil
      unfold lastRestoredIndex
      rw [hnil]
      rfl
    · intro hne
      exact ⟨foldl_replace_mem _ baseIdx hne,
        fun j hj => foldl_replace_le _ (incrIndices_pairwise tl base bs baseIdx)
          baseIdx j hj⟩
  · intro excl check tl base bs baseIdx dest hblk
    exact applyIncrementals_spec excl check tl base bs hblk
      ((List.range baseIdx).reverse) dest baseIdx
  · intro tl base bs baseIdx i b hi hbi
    obtain ⟨-, b2, hbi2, h1, -⟩ := (hmem tl base bs baseIdx i).mp hi
    have : b = b2 := by rw [hbi] at hbi2; exact Option.some.inj hbi2
    subst this
    exact h1

/-- C2 witness: over catalog `[INCR@20, FULL@10]` with base at position
1, position 0 is selected, is the last restored index, and the walk
completes without error. -/
theorem C2_incremental_selection_witness :
    (0 ∈ incrIndices [⟨1, unboundedLSN⟩] exFull10 [exIncr20, exFull10] 1) ∧
    lastRestoredIndex [⟨1, unboundedLSN⟩] exFull10 [exIncr20, exFull10] 1
      ∈ incrIndices [⟨1, unboundedLSN⟩] exFull10 [exIncr20, exFull10] 1 ∧
    (applyIncrementals [] false [⟨1, unboundedLSN⟩] exFull10 [exIncr20, exFull10]
        ((List.range 1).reverse) ∅ 1).2.2.2 = none := by
  refine ⟨?_, ?_, ?_⟩
  · exact (C2_incremental_selection.1 [⟨1, unboundedLSN⟩] exFull10
      [exIncr20, exFull10] 1 0).mpr
      ⟨Nat.zero_lt_one, exIncr20, by decide, by decide, by decide, by decide, by decide⟩
  · exact ((C2_incremental_selection.2.2.1 [⟨1, unboundedLSN⟩] exFull10
      [exIncr20, exFull10] 1).2 (by decide)).1
  · exact (C2_incremental_selection.2.2.2.1 [] false [⟨1, unboundedLSN⟩] exFull10
      [exIncr20, exFull10] 1 ∅ exTwoChain_blocks_ok).2.2

theorem restore_database_ok_false (excl : List String) (b : Backup)
    (dest d : Finset String) (h : restore_database excl false b dest = .ok d) :
    b.block_size = BLCKSZ ∧ b.wal_block_size = XLOG_BLCKSZ ∧
    d = (deletionPass (manifestPaths b) excl
          (dest ∪ (dirPaths b).toFinset ∪ (capturedFilePaths b).toFinset)).erase
        "postmaster.pid" := by
  unfold restore_database at h
  by_cases h1 : b.block_size ≠ BLCKSZ
  · rw [if_pos h1] at h; exact absurd h (by simp)
  · rw [if_neg h1] at h
    by_cases h2 : b.wal_block_size ≠ XLOG_BLCKSZ
    · rw [if_pos h2] at h; exact absurd h (by simp)
    · rw [if_neg h2] at h
      simp only [Bool.false_eq_true, if_false] at h
      exact ⟨Classical.not_not.mp h1, Classical.not_not.mp h2,
        (Except.ok.inj h).symm⟩

theorem restore_database_mem (excl : List String) (b : Backup)
    (dest d : Finset String) (h : restore_database excl false b dest = .ok d)
    (p : String) :
    p ∈ d ↔ (p ≠ "postmaster.pid" ∧
      (p ∈ dest ∨ p ∈ dirPaths b ∨ p ∈ capturedFilePaths b) ∧
      (p ∈ manifestPaths b ∨ p ∈ excl)) := by
  obtain ⟨-, -, hd⟩ := restore_database_ok_false excl b dest d h
  subst hd
  simp only [deletionPass, Finset.mem_erase, Finset.mem_filter, Finset.mem_union,
    List.mem_toFinset]
  tauto

/-- C8: the File Synchronizer is idempotent: applying `restore_database`
a second time with the same backup manifest, against the destination it
just produced, succeeds and leaves that destination unchanged — no file
missing, duplicated or left over. -/
theorem C8_file_sync_idempotence :
    ∀ (excl : List String) (b : Backup) (dest d : Finset String),
      restore_database excl false b dest = .ok d →
      restore_database excl false b d = .ok d := by
  intro excl b dest d h
  obtain ⟨h1, h2, hd⟩ := restore_database_ok_false excl b dest d h
  unfold restore_database
  rw [if_neg (by simp [h1]), if_neg (by simp [h2])]
  simp only [Bool.false_eq_true, if_false]
  congr 1
  subst hd
  ext p
  simp only [deletionPass, Finset.mem_erase, Finset.mem_filter, Finset.mem_union,
    List.mem_toFinset]
  tauto

/-- C8 witness: a concrete double application of the synchronizer. -/
theorem C8_file_sync_idempotence_witness :
    restore_database [] false exFull10 {"junk"} = .ok {"base", "base/1"} ∧
    restore_database [] false exFull10 {"base", "base/1"} = .ok {"base", "base/1"} :=
  ⟨by decide, C8_file_sync_idempotence [] exFull10 {"junk"} {"base", "base/1"} (by decide)⟩

/-- C10: the deletion pass re-reads the manifest without filtering out
not-captured sentinel entries, so every path in the currently-applied
backup's manifest — sentinel entries included — survives the pass; in
particular a file restored by an earlier chain entry whose path a later
incremental lists with the sentinel survives that incremental's
`restore_database`. -/
theorem C10_sentinel_shields_deletion :
    (∀ (excl : List String) (b : Backup) (dest : Finset String) (f : PgFile),
        f ∈ b.dbFiles → f.path ∈ dest →
        f.path ∈ deletionPass (manifestPaths b) excl dest) ∧
    (∀ (excl : List String) (base incr : Backup) (dest dbase dincr : Finset String)
        (p : String),
        restore_database excl false base dest = .ok dbase →
        p ∈ dbase →
        (∃ f ∈ incr.dbFiles, f.path = p ∧ f.write_size = none) →
        p ≠ "postmaster.pid" →
        restore_database excl false incr dbase = .ok dincr →
        p ∈ dincr) := by
  constructor
  · intro excl b dest f hf hdest
    simp only [deletionPass, Finset.mem_filter]
    exact ⟨hdest, Or.inl (List.mem_map_of_mem (fun g => g.path) hf)⟩
  · intro excl base incr dest dbase dincr p h1 hp hex hpm h2
    rw [restore_database_mem excl incr dbase dincr h2 p]
    obtain ⟨f, hf, hfp, -⟩ := hex
    refine ⟨hpm, Or.inl hp, Or.inl ?_⟩
    rw [← hfp]
    exact List.mem_map_of_mem (fun g => g.path) hf

/-- C10 witness: `base/1` is restored by the FULL backup, listed with
the sentinel by the INCREMENTAL, and survives the incremental's pass. -/
theorem C10_sentinel_shields_deletion_witness :
    ("base/1" ∈ deletionPass (manifestPaths exIncr20) [] {"base/1"}) ∧
    ("base/1" : String) ∈ ({"base", "base/1", "base/2"} : Finset String) := by
  constructor
  · exact C10_sentinel_shields_deletion.1 [] exIncr20 {"base/1"}
      ⟨"base/1", false, none⟩ (by decide) (by decide)
  · exact C10_sentinel_shields_deletion.2 [] exFull10 exIncr20 ∅
      {"base", "base/1"} {"base", "base/1", "base/2"} "base/1"
      (by decide) (by decide) ⟨⟨"base/1", false, none⟩, by decide, rfl, rfl⟩
      (by decide) (by decide)

theorem applyArchives_no_db_events (tl : List PgTimeLine) (bs : List Backup)
    (idxs : List Nat) :
    (applyArchives tl bs idxs).countP isDeletionPassEvt = 0 ∧
    (applyArchives tl bs idxs).countP isRestoreDatabaseEvt = 0 := by
  constructor <;>
  · rw [List.countP_eq_zero]
    intro e he
    obtain ⟨i, -, hi⟩ := List.mem_filterMap.mp he
    cases hbi : bs[i]? with
    | none => rw [hbi] at hi; simp at hi
    | some b =>
      rw [hbi] at hi
      dsimp only at hi
      by_cases ha : acceptArchive tl b = true
      · rw [if_pos ha] at hi
        have he2 : e = Event.RestoreArchiveLogsEvt b := Option.some.inj hi.symm
        subst he2
        simp [isDeletionPassEvt, isRestoreDatabaseEvt]
      · rw [if_neg ha] at hi; simp at hi

theorem applyIncrementals_counts (excl : List String) (tl : List PgTimeLine)
    (base : Backup) (bs : List Backup) :
    ∀ (idxs : List Nat) (dest : Finset String) (last : Nat),
      (applyIncrementals excl false tl base bs idxs dest last).2.2.2 = none →
      (applyIncrementals excl false tl base bs idxs dest last).1.countP isDeletionPassEvt
        = (applyIncrementals excl false tl base bs idxs dest last).1.countP
            isRestoreDatabaseEvt := by
  intro idxs
  induction idxs with
  | nil => intro dest last _; rfl
  | cons i rest ih =>
    intro dest last herr
    cases hbi : bs[i]? with
    | none =>
      rw [applyIncrementals] at herr ⊢
      rw [hbi] at herr ⊢
      exact ih dest last herr
    | some b =>
      rw [applyIncrementals] at herr ⊢
      rw [hbi] at herr ⊢
      dsimp only at herr ⊢
      by_cases ha : acceptIncr tl base b = true
      · rw [if_pos ha] at herr ⊢
        cases hrd : restore_database excl false b dest with
        | error e =>
          rw [hrd] at herr
          simp at herr
        | ok d2 =>
          rw [hrd] at herr
          dsimp only at herr ⊢
          rw [List.countP_append, List.countP_append, ih d2 i herr]
          have hdb : (dbEvents false b).countP isDeletionPassEvt
              = (dbEvents false b).countP isRestoreDatabaseEvt := by
            simp [dbEvents, List.countP, List.countP.go, isDeletionPassEvt,
              isRestoreDatabaseEvt]
          rw [hdb]
      · rw [if_neg ha] at herr ⊢
        exact ih dest last herr

/-- C3 counterexample: over the catalog `[INCR@20 OK, FULL@10 OK]` on
timeline 1 (both selected into the chain), the successful non-dry-run
restore performs two reconciliation (deletion) passes — one inside each
`restore_database` application — not one single pass after all chain
entries are applied. -/
theorem C3_reconciliation_once_counterexample :
    (doRestore envTwoChain ∅).err = none ∧
    ¬ ((doRestore envTwoChain ∅).trace.countP isDeletionPassEvt = 1) ∧
    (doRestore envTwoChain ∅).trace.countP isDeletionPassEvt = 2 := by decide

/-- C3 amended: the reconciliation pass runs once per applied chain
entry — inside each `restore_database` call, base and incrementals
alike, against that backup's own manifest re-read (unfiltered) with the
base path moved to the destination root; each pass keeps exactly the
destination entries that are in that manifest or in the exclusion set
and deletes all others; consequently a successful non-dry-run restore
performs exactly as many deletion passes as `restore_database`
applications, rather than one pass after all chain entries. -/
theorem C3_reconciliation_per_backup :
    (∀ (keep excl : List String) (dest : Finset String) (p : String),
        p ∈ deletionPass keep excl dest ↔ (p ∈ dest ∧ (p ∈ keep ∨ p ∈ excl))) ∧
    (∀ (env : RestoreEnv) (dest0 : Finset String),
        env.check = false →
        (doRestore env dest0).err = none →
        (doRestore env dest0).trace.countP isDeletionPassEvt
          = (doRestore env dest0).trace.countP isRestoreDatabaseEvt) := by
  constructor
  · intro keep excl dest p
    simp [deletionPass, Finset.mem_filter]
  · intro env dest0 hc herr
    unfold doRestore at herr ⊢
    rw [hc] at herr ⊢
    simp only [Bool.false_eq_true, if_false] at herr ⊢
    cases hh : readTimeLineHistory env.targetTLI env.historyFile with
    | error e =>
      try rw [hh] at herr
      simp at herr
    | ok tls =>
      try rw [hh] at herr
      dsimp only at herr ⊢
      cases hfb : findBase tls env.backups with
      | none =>
        try rw [hfb] at herr
        simp at herr
      | some ib =>
        obtain ⟨bi, base⟩ := ib
        try rw [hfb] at herr
        dsimp only at herr ⊢
        cases hrd : restore_database env.excl false base ∅ with
        | error e =>
          try rw [hrd] at herr
          simp at herr
        | ok dest2 =>
          try rw [hrd] at herr
          dsimp only at herr ⊢
          cases hr : (applyIncrementals env.excl false tls base env.backups
              ((List.range bi).reverse) dest2 bi).2.2.2 with
          | some e =>
            try rw [hr] at herr
            simp at herr
          | none =>
            try rw [hr] at herr
            dsimp only at herr ⊢
            simp only [List.countP_append]
            rw [applyIncrementals_counts env.excl tls base env.backups
              ((List.range bi).reverse) dest2 bi hr]
            rw [(applyArchives_no_db_events tls env.backups
              ((List.range ((applyIncrementals env.excl false tls base env.backups
                ((List.range bi).reverse) dest2 bi).2.2.1 + 1)).reverse)).1,
              (applyArchives_no_db_events tls env.backups
              ((List.range ((applyIncrementals env.excl false tls base env.backups
                ((List.range bi).reverse) dest2 bi).2.2.1 + 1)).reverse)).2]
            simp [dbEvents, List.countP_cons, isDeletionPassEvt, isRestoreDatabaseEvt,
              List.countP, List.countP.go]

/-- C3 amended witness: the two-entry chain run has equal pass and
application counts, and a concrete pass keeps the listed entry and
deletes the unlisted one. -/
theorem C3_reconciliation_per_backup_witness :
    ((doRestore envTwoChain ∅).trace.countP isDeletionPassEvt
      = (doRestore envTwoChain ∅).trace.countP isRestoreDatabaseEvt) ∧
    ("x" ∈ deletionPass ["x"] [] {"x", "y"}) ∧
    ("y" ∉ deletionPass ["x"] [] {"x", "y"}) := by
  refine ⟨?_, ?_, ?_⟩
  · exact C3_reconciliation_per_backup.2 envTwoChain ∅ rfl (by decide)
  · exact (C3_reconciliation_per_backup.1 ["x"] [] {"x", "y"} "x").mpr (by decide)
  · intro hmem
    exact absurd ((C3_reconciliation_per_backup.1 ["x"] [] {"x", "y"} "y").mp hmem).2
      (by decide)

theorem restore_database_error_shape (excl : List String) (check : Bool)
    (b : Backup) (dest : Finset String) (e : RestoreError)
    (h : restore_database excl check b dest = .error e) :
    e = .ERROR_PG_INCOMPATIBLE := by
  unfold restore_database at h
  by_cases h1 : b.block_size ≠ BLCKSZ
  · rw [if_pos h1] at h; exact (Except.error.inj h).symm
  · rw [if_neg h1] at h
    by_cases h2 : b.wal_block_size ≠ XLOG_BLCKSZ
    · rw [if_pos h2] at h; exact (Except.error.inj h).symm
    · rw [if_neg h2] at h
      by_cases hc : check = true
      · rw [if_pos hc] at h; exact absurd h (by simp)
      · rw [if_neg hc] at h; exact absurd h (by simp)

theorem applyIncrementals_error_shape (excl : List String) (check : Bool)
    (tl : List PgTimeLine) (base : Backup) (bs : List Backup) :
    ∀ (idxs : List Nat) (dest : Finset String) (last : Nat) (e : RestoreError),
      (applyIncrementals excl check tl base bs idxs dest last).2.2.2 = some e →
      e = .ERROR_PG_INCOMPATIBLE := by
  intro idxs
  induction idxs with
  | nil => intro dest last e h; simp [applyIncrementals] at h
  | cons i rest ih =>
    intro dest last e h
    rw [applyIncrementals] at h
    cases hbi : bs[i]? with
    | none =>
      rw [hbi] at h
      exact ih dest last e h
    | some b =>
      rw [hbi] at h
      dsimp only at h
      by_cases ha : acceptIncr tl base b = true
      · rw [if_pos ha] at h
        cases hrd : restore_database excl check b dest with
        | error e2 =>
          rw [hrd] at h
          dsimp only at h
          have he : e2 = e := Option.some.inj h
          subst he
          exact restore_database_error_shape excl check b dest e2 hrd
        | ok d2 =>
          rw [hrd] at h
          dsimp only at h
          exact ih d2 i e h
      · rw [if_neg ha] at h
        exact ih dest last e h

theorem readTimeLineHistory_error_shape (t : Nat)
    (file : Option (List HistoryLine)) (e : RestoreError)
    (h : readTimeLineHistory t file = .error e) : e = .ERROR_CORRUPTED := by
  rcases parseRecords_ok_or_corrupted (recordsOf (file.getD [])) none []
    with ⟨⟨res, lst⟩, hr⟩ | hr
  · unfold readTimeLineHistory at h
    rw [parseHistoryLines_eq_parseRecords, hr] at h
    have h2 : (if tliNotIncreasing lst t = true then
        (Except.error RestoreError.ERROR_CORRUPTED : Except RestoreError (List PgTimeLine))
      else .ok (⟨t, unboundedLSN⟩ :: res)) = .error e := h
    by_cases hti : tliNotIncreasing lst t = true
    · rw [if_pos hti] at h2
      exact (Except.error.inj h2).symm
    · rw [if_neg hti] at h2
      exact absurd h2 (by simp)
  · unfold readTimeLineHistory at h
    rw [parseHistoryLines_eq_parseRecords, hr] at h
    have h2 : (Except.error RestoreError.ERROR_CORRUPTED
        : Except RestoreError (List PgTimeLine)) = .error e := h
    exact (Except.error.inj h2).symm

/-- C9: in every non-dry-run invocation the online WAL/serverlog
snapshot and the destination clearing happen, in that order, before the
timeline chain is resolved and before any backup is selected (the trace
always begins snapshot, clear, history-file copy); hence a run failing
fatally with the corrupted-history or no-usable-backup error ends with
the destination already emptied, nothing restored and no rollback: its
whole trace is that prefix (plus the chain-resolution step in the
no-backup case), its final destination is empty, and it contains no
database-restore or archive-restore event. -/
theorem C9_clear_before_selection :
    (∀ (env : RestoreEnv) (dest0 : Finset String),
        env.check = false →
        (doRestore env dest0).trace.take 3
          = [.BackupOnlineFiles, .ClearDestination, .RestoreTimelineHistoryFiles]) ∧
    (∀ (env : RestoreEnv) (dest0 : Finset String),
        env.check = false →
        (doRestore env dest0).err = some .ERROR_CORRUPTED →
        (doRestore env dest0).trace
            = [.BackupOnlineFiles, .ClearDestination, .RestoreTimelineHistoryFiles] ∧
        (doRestore env dest0).dest = ∅ ∧
        ∀ b, Event.RestoreDatabaseEvt b ∉ (doRestore env dest0).trace ∧
          Event.RestoreArchiveLogsEvt b ∉ (doRestore env dest0).trace) ∧
    (∀ (env : RestoreEnv) (dest0 : Finset String),
        env.check = false →
        (doRestore env dest0).err = some .ERROR_NO_BACKUP →
        (doRestore env dest0).trace
            = [.BackupOnlineFiles, .ClearDestination, .RestoreTimelineHistoryFiles,
               .ReadTimeLineHistoryEvt] ∧
        (doRestore env dest0).dest = ∅ ∧
        ∀ b, Event.RestoreDatabaseEvt b ∉ (doRestore env dest0).trace ∧
          Event.RestoreArchiveLogsEvt b ∉ (doRestore env dest0).trace) := by
  have hfirst3 : ∀ (env : RestoreEnv) (dest0 : Finset String),
      env.check = false →
      (doRestore env dest0).trace.take 3
        = [.BackupOnlineFiles, .ClearDestination, .RestoreTimelineHistoryFiles] := by
    intro env dest0 hc
    unfold doRestore
    rw [hc]
    simp only [Bool.false_eq_true, if_false]
    cases hh : readTimeLineHistory env.targetTLI env.historyFile with
    | error e => rfl
    | ok tls =>
      dsimp only
      cases hfb : findBase tls env.backups with
      | none => rfl
      | some ib =>
        obtain ⟨bi, base⟩ := ib
        dsimp only
        cases hrd : restore_database env.excl false base ∅ with
        | error e => rfl
        | ok dest2 =>
          dsimp only
          cases hr : (applyIncrementals env.excl false tls base env.backups
              ((List.range bi).reverse) dest2 bi).2.2.2 with
          | some e => rfl
          | none => rfl
  refine ⟨hfirst3, ?_, ?_⟩
  · intro env dest0 hc herr
    unfold doRestore at herr ⊢
    rw [hc] at herr ⊢
    simp only [Bool.false_eq_true, if_false] at herr ⊢
    cases hh : readTimeLineHistory env.targetTLI env.historyFile with
    | error e =>
      try rw [hh] at herr
      dsimp only at herr ⊢
      refine ⟨rfl, rfl, ?_⟩
      intro b
      constructor <;> simp
    | ok tls =>
      try rw [hh] at herr
      dsimp only at herr ⊢
      cases hfb : findBase tls env.backups with
      | none =>
        try rw [hfb] at herr
        dsimp only at herr
        exact absurd (Option.some.inj herr) (by decide)
      | some ib =>
        obtain ⟨bi, base⟩ := ib
        try rw [hfb] at herr
        dsimp only at herr ⊢
        cases hrd : restore_database env.excl false base ∅ with
        | error e =>
          try rw [hrd] at herr
          dsimp only at herr
          have he := Option.some.inj herr
          subst he
          exact absurd (restore_database_error_shape env.excl false base ∅ _ hrd)
            (by decide)
        | ok dest2 =>
          try rw [hrd] at herr
          dsimp only at herr ⊢
          cases hr : (applyIncrementals env.excl false tls base env.backups
              ((List.range bi).reverse) dest2 bi).2.2.2 with
          | some e =>
            try rw [hr] at herr
            dsimp only at herr
            have he := Option.some.inj herr
            subst he
            exact absurd (applyIncrementals_error_shape env.excl false tls base
              env.backups ((List.range bi).reverse) dest2 bi _ hr) (by decide)
          | none =>
            try rw [hr] at herr
            dsimp only at herr
            exact absurd herr (by simp)
  · intro env dest0 hc herr
    unfold doRestore at herr ⊢
    rw [hc] at herr ⊢
    simp only [Bool.false_eq_true, if_false] at herr ⊢
    cases hh : readTimeLineHistory env.targetTLI env.historyFile with
    | error e =>
      try rw [hh] at herr
      dsimp only at herr
      have he := Option.some.inj herr
      subst he
      exact absurd (readTimeLineHistory_error_shape env.targetTLI env.historyFile _ hh)
        (by decide)
    | ok tls =>
      try rw [hh] at herr
      dsimp only at herr ⊢
      cases hfb : findBase tls env.backups with
      | none =>
        try rw [hfb] at herr
        dsimp only at herr ⊢
        refine ⟨rfl, rfl, ?_⟩
        intro b
        constructor <;> simp
      | some ib =>
        obtain ⟨bi, base⟩ := ib
        try rw [hfb] at herr
        dsimp only at herr ⊢
        cases hrd : restore_database env.excl false base ∅ with
        | error e =>
          try rw [hrd] at herr
          dsimp only at herr
          have he := Option.some.inj herr
          subst he
          exact absurd (restore_database_error_shape env.excl false base ∅ _ hrd)
            (by decide)
        | ok dest2 =>
          try rw [hrd] at herr
          dsimp only at herr ⊢
          cases hr : (applyIncrementals env.excl false tls base env.backups
              ((List.range bi).reverse) dest2 bi).2.2.2 with
          | some e =>
            try rw [hr] at herr
            dsimp only at herr
            have he := Option.some.inj herr
            subst he
            exact absurd (applyIncrementals_error_shape env.excl false tls base
              env.backups ((List.range bi).reverse) dest2 bi _ hr) (by decide)
          | none =>
            try rw [hr] at herr
            dsimp only at herr
            exact absurd herr (by simp)

/-- C9 witness: concrete runs — the non-dry-run prefix, a corrupted
history run and an empty-catalog run, both ending with an empty
destination and no restore events. -/
theorem C9_clear_before_selection_witness :
    ((doRestore envTwoChain ∅).trace.take 3
      = [.BackupOnlineFiles, .ClearDestination, .RestoreTimelineHistoryFiles]) ∧
    ((doRestore envCorrupt ∅).trace
      = [.BackupOnlineFiles, .ClearDestination, .RestoreTimelineHistoryFiles] ∧
      (doRestore envCorrupt ∅).dest = ∅) ∧
    ((doRestore envNoBackup ∅).trace
      = [.BackupOnlineFiles, .ClearDestination, .RestoreTimelineHistoryFiles,
         .ReadTimeLineHistoryEvt] ∧
      (doRestore envNoBackup ∅).dest = ∅) := by
  refine ⟨?_, ?_, ?_⟩
  · exact C9_clear_before_selection.1 envTwoChain ∅ rfl
  · have h := C9_clear_before_selection.2.1 envCorrupt ∅ rfl (by decide)
    exact ⟨h.1, h.2.1⟩
  · have h := C9_clear_before_selection.2.2 envNoBackup ∅ rfl (by decide)
    exact ⟨h.1, h.2.1⟩

/-- C7 (code-bug evidence): the skip test of restore.c:508-509 compares
the FIRST `strstr` occurrence of `".history"` against the suffix
position, so the archive entry `a.history/00000001.history` — a
timeline-history file name, which restore.c's own comment says is
skipped — ends in `.history` yet is NOT skipped: the uncompressed
backup links it into the destination archive.  A name whose first
`".history"` occurrence is the suffix is skipped, the not-captured
sentinel is skipped, and a compressed backup decompress-copies. -/
theorem C7_history_suffix_not_skipped :
    nameEndsWithHistory "a.history/00000001.history" = true ∧
    archiveAction exFull10 ⟨"a.history/00000001.history", false, some 16777216⟩
      = .removeThenLink ∧
    archiveAction exFull10 ⟨"00000001.history", false, some 42⟩ = .skipHistory ∧
    archiveAction exFull10 ⟨"00000001000000000000002A", false, none⟩
      = .skipNotBackedUp ∧
    archiveAction { exFull10 with compress_data := true }
      ⟨"00000001000000000000002A", false, some 5⟩ = .decompressCopy := by
  refine ⟨by decide, by decide, by decide, by decide, by decide⟩

theorem searchLoop_stops_at_gap (ex : WalFileName → Bool) :
    ∀ (fuel id seg : Nat) (tls : List PgTimeLine) (count : Nat)
      (first pre : Option WalFileName) (r : WalReport) (st : Nat × Nat)
      (tls2 : List PgTimeLine),
      searchLoop ex fuel id seg tls count first pre = some (r, st, tls2) →
      findWalKeep ex st.1 st.2 tls2 = none := by
  intro fuel
  induction fuel with
  | zero => intro id seg tls count first pre r st tls2 h; simp [searchLoop] at h
  | succ f ih =>
    intro id seg tls count first pre r st tls2 h
    rw [searchLoop] at h
    cases hf : findWalKeep ex id seg tls with
    | none =>
      rw [hf] at h
      dsimp only at h
      obtain ⟨h1, h2⟩ := Prod.mk.inj (Option.some.inj h)
      obtain ⟨h3, h4⟩ := Prod.mk.inj h2
      subst h3; subst h4
      exact hf
    | some p =>
      obtain ⟨w, tlsKept⟩ := p
      rw [hf] at h
      dsimp only at h
      exact ih _ _ tlsKept _ _ _ r st tls2 h

/-- C6: in dry-run mode, a successful run seeds the continuity checker
from the last restored backup's `start_lsn` — log id, and byte offset
divided by the WAL segment size; the search loop stops exactly at the
first segment number found under no remaining timeline-chain entry; and
it reports the last contiguous run: nothing when no segment was found,
the single file name when exactly one was found, and a first–last range
when several consecutive segments were found (an unbroken run of
segments 0, 1, 2 with a gap at 3 reports the range 0 through 2 and
stops at 3). -/
theorem C6_wal_continuity_report :
    (∀ (env : RestoreEnv) (dest0 : Finset String),
        env.check = true →
        (doRestore env dest0).err = none →
        ∃ last, (doRestore env dest0).lastIdx = some last ∧
          (doRestore env dest0).walSeed
            = (env.backups[last]?).map (fun b =>
                (b.start_lsn.xlogid, b.start_lsn.xrecoff / XLogSegSize))) ∧
    (∀ (ex : WalFileName → Bool) (fuel id seg : Nat) (tls : List PgTimeLine)
        (count : Nat) (first pre : Option WalFileName) (r : WalReport)
        (st : Nat × Nat) (tls2 : List PgTimeLine),
        searchLoop ex fuel id seg tls count first pre = some (r, st, tls2) →
        findWalKeep ex st.1 st.2 tls2 = none) ∧
    (search_next_wal (fun w => w.tli == 5 && w.log == 0 && decide (w.seg < 3)) 10 0 0
        [⟨5, unboundedLSN⟩]
      = some (.range ⟨5, 0, 0⟩ ⟨5, 0, 2⟩, (0, 3), [⟨5, unboundedLSN⟩])) ∧
    (search_next_wal (fun w => w.tli == 5 && w.log == 0 && w.seg == 0) 10 0 0
        [⟨5, unboundedLSN⟩]
      = some (.single ⟨5, 0, 0⟩, (0, 1), [⟨5, unboundedLSN⟩])) ∧
    (search_next_wal (fun _ => false) 10 0 0 [⟨5, unboundedLSN⟩]
      = some (.nothingFound, (0, 0), [⟨5, unboundedLSN⟩])) := by
  refine ⟨?_, searchLoop_stops_at_gap, by decide, by decide, by decide⟩
  intro env dest0 hc herr
  unfold doRestore at herr ⊢
  rw [hc] at herr ⊢
  simp only [if_true] at herr ⊢
  cases hh : readTimeLineHistory env.targetTLI env.historyFile with
  | error e =>
    try rw [hh] at herr
    simp at herr
  | ok tls =>
    try rw [hh] at herr
    dsimp only at herr ⊢
    cases hfb : findBase tls env.backups with
    | none =>
      try rw [hfb] at herr
      simp at herr
    | some ib =>
      obtain ⟨bi, base⟩ := ib
      try rw [hfb] at herr
      dsimp only at herr ⊢
      cases hrd : restore_database env.excl true base dest0 with
      | error e =>
        try rw [hrd] at herr
        simp at herr
      | ok dest2 =>
        try rw [hrd] at herr
        dsimp only at herr ⊢
        cases hr : (applyIncrementals env.excl true tls base env.backups
            ((List.range bi).reverse) dest2 bi).2.2.2 with
        | some e =>
          try rw [hr] at herr
          simp at herr
        | none =>
          try rw [hr] at herr
          dsimp only
          exact ⟨(applyIncrementals env.excl true tls base env.backups
            ((List.range bi).reverse) dest2 bi).2.2.1, rfl, rfl⟩

/-- C6 witness: the dry run over `[FULL@10]` seeds `(0, 0)` from the
FULL backup's `start_lsn = (0, 1)`, and a concrete stopped loop has its
final segment found nowhere. -/
theorem C6_wal_continuity_report_witness :
    (∃ last, (doRestore envCheckSeed ∅).lastIdx = some last ∧
      (doRestore envCheckSeed ∅).walSeed
        = (envCheckSeed.backups[last]?).map (fun b =>
            (b.start_lsn.xlogid, b.start_lsn.xrecoff / XLogSegSize))) ∧
    findWalKeep (fun w => w.tli == 5 && w.log == 0 && decide (w.seg < 3)) 0 3
      [⟨5, unboundedLSN⟩] = none := by
  constructor
  · exact C6_wal_continuity_report.1 envCheckSeed ∅ rfl (by decide)
  · exact C6_wal_continuity_report.2.1
      (fun w => w.tli == 5 && w.log == 0 && decide (w.seg < 3)) 10 0 0
      [⟨5, unboundedLSN⟩] 0 none none (.range ⟨5, 0, 0⟩ ⟨5, 0, 2⟩) (0, 3)
      [⟨5, unboundedLSN⟩] (by decide)
